import Mathlib

/-!
Verification development for the TrustSpace property-rental marketplace.

The repository stores each collection (users, properties, bookings, reviews,
verification sessions) as a JSON array of objects in one file.  We embed a JSON
object as an association list from field names to scalar values (`Record`), and
translate the Python functions of `src/utils/database.py`,
`src/database-implementation.py`, `src/utils/auth.py` and
`src/video-verification.py` into executable Lean functions.  Python `KeyError` /
`TypeError` propagation is modelled with `Except String`; wall-clock timestamps
and the password hash are passed in as explicit parameters.
-/

namespace TrustSpace

/-- A JSON scalar value as stored in the data files.  List- and object-valued
fields (image lists, KYC documents) are never inspected by the operations
verified here, so the embedding restricts values to scalars. -/
inductive Value where
  | vstr (s : String)
  | vint (n : Int)
  | vbool (b : Bool)
  | vnull
deriving DecidableEq, Repr

/-- A JSON object: an association list from field names to values.  Python
dicts have unique keys and preserve insertion order; lookup takes the first
binding. -/
abbrev Record := List (String × Value)

/-- Python `key in d` / `d.get(key)`: first binding of `k`, if any. -/
def getVal : Record → String → Option Value
  | [], _ => none
  | (k', v) :: rest, k => if k' = k then some v else getVal rest k

/-- Python `d[key]`: raises `KeyError` when the key is absent. -/
def getField (r : Record) (k : String) : Except String Value :=
  match getVal r k with
  | some v => Except.ok v
  | none => Except.error ("KeyError: " ++ k)

/-- Python `d[key] = v`: replace in place when the key exists, else append. -/
def setField : Record → String → Value → Record
  | [], k, v => [(k, v)]
  | (k', v') :: rest, k, v =>
    if k' = k then (k, v) :: rest else (k', v') :: setField rest k v

/-- Python `d.setdefault(key, v)`. -/
def setDefault (r : Record) (k : String) (v : Value) : Record :=
  match getVal r k with
  | some _ => r
  | none => r ++ [(k, v)]

/-- Python `{**a, **b}` / `a.update(b)`: keys of `a` keep their position with
`b`'s value when overridden; keys only in `b` are appended in order. -/
def dictMerge (a b : Record) : Record :=
  (a.map (fun p => (p.1, (getVal b p.1).getD p.2))) ++
    b.filter (fun p => (getVal a p.1).isNone)

/-- Python `x < y` on JSON scalars: defined for two numbers or two strings,
`TypeError` otherwise (the stores compared here hold numeric prices). -/
def valueLt : Value → Value → Except String Bool
  | Value.vint a, Value.vint b => Except.ok (decide (a < b))
  | Value.vstr a, Value.vstr b => Except.ok (decide (a < b))
  | _, _ => Except.error "TypeError"

/-- Python `x > y`, as for `valueLt`. -/
def valueGt : Value → Value → Except String Bool
  | Value.vint a, Value.vint b => Except.ok (decide (b < a))
  | Value.vstr a, Value.vstr b => Except.ok (decide (b < a))
  | _, _ => Except.error "TypeError"

/-!
## `src/utils/database.py` — `get_properties` (lines 85–110)

One filter step of the loop body: `price_min` / `price_max` read
`prop['price_per_day']` unconditionally (raising `KeyError` when absent), every
other key matches unless the record has the key with a different value (an
absent key is a silent pass).
-/

/-- Loop body of `get_properties` for one `(key, value)` filter entry. -/
def filterStep (prop : Record) (key : String) (value : Value) :
    Except String Bool :=
  if key = "price_min" then
    match getField prop "price_per_day" with
    | Except.error e => Except.error e
    | Except.ok pv =>
      match valueLt pv value with
      | Except.error e => Except.error e
      | Except.ok lt => Except.ok (!lt)
  else if key = "price_max" then
    match getField prop "price_per_day" with
    | Except.error e => Except.error e
    | Except.ok pv =>
      match valueGt pv value with
      | Except.error e => Except.error e
      | Except.ok gt => Except.ok (!gt)
  else
    match getVal prop key with
    | some pv => Except.ok (pv == value)
    | none => Except.ok true

/-- The inner `for key, value in filters.items()` loop: runs every filter entry
(even after a mismatch, as the Python loop does), so a later `KeyError` still
raises when an earlier entry already failed to match. -/
def matchesAll (prop : Record) : List (String × Value) → Bool →
    Except String Bool
  | [], acc => Except.ok acc
  | (k, v) :: rest, acc =>
    match filterStep prop k v with
    | Except.error e => Except.error e
    | Except.ok m => matchesAll prop rest (acc && m)

/-- Python `get_properties(filters)` of `src/utils/database.py`, over an in-memory
property list (`load_data` is modelled separately). -/
def get_properties (properties : List Record) (filters : List (String × Value)) :
    Except String (List Record) :=
  match filters with
  | [] => Except.ok properties
  | _ :: _ =>
    match properties with
    | [] => Except.ok []
    | prop :: rest =>
      match matchesAll prop filters true with
      | Except.error e => Except.error e
      | Except.ok m =>
        match get_properties rest filters with
        | Except.error e => Except.error e
        | Except.ok tail => Except.ok (if m then prop :: tail else tail)

/-- The predicate the `status` filter of `get_properties` actually decides:
records whose `status` equals the requested value pass, and so does every
record with no `status` field at all. -/
def statusPasses (v : Value) (p : Record) : Bool :=
  match getVal p "status" with
  | some pv => pv == v
  | none => true

theorem matchesAll_status (p : Record) (v : Value) :
    matchesAll p [("status", v)] true = Except.ok (statusPasses v p) := by
  simp only [matchesAll, filterStep, statusPasses]
  rw [if_neg (by decide), if_neg (by decide)]
  cases h : getVal p "status" <;> simp [h]

theorem get_properties_status (props : List Record) (v : Value) :
    get_properties props [("status", v)] =
      Except.ok (props.filter (statusPasses v)) := by
  induction props with
  | nil => rfl
  | cons p rest ih =>
    simp only [get_properties, matchesAll_status, ih, List.filter_cons]

/-- C1: the claim as stated is false — a record with no `status` field passes
the `{status: "active"}` filter of `get_properties`, because an absent filter
key is a silent pass in `src/utils/database.py` lines 104–105.  Concretely, a
store holding the single record `{"id": 7}` (no `status` field) yields that
record. -/
theorem c1_counterexample :
    get_properties [[("id", Value.vint 7)]] [("status", Value.vstr "active")] =
      Except.ok [[("id", Value.vint 7)]] ∧
    getVal [("id", Value.vint 7)] "status" = none := by
  exact ⟨rfl, rfl⟩

/-- C1 (amended): `get_properties` with filter `{status: "active"}` returns
exactly the stored records whose `status` field equals `"active"` together
with every record that has no `status` field at all (an absent filter key is a
silent pass). -/
theorem c1_status_filter (props : List Record) :
    get_properties props [("status", Value.vstr "active")] =
      Except.ok (props.filter (fun p =>
        decide (getVal p "status" = some (Value.vstr "active") ∨
          getVal p "status" = none))) := by
  rw [get_properties_status]
  congr 1
  apply List.filter_congr
  intro p _
  simp only [statusPasses]
  cases h : getVal p "status"
  · simp [h]
  · simp [h]
    exact Bool.eq_iff_iff.mpr (by simp)

/-!
## Price-range filtering (C6)
-/

/-- The predicate the combined `price_min`/`price_max` filters decide on a
record with numeric `price_per_day`: the price lies in `[a, b]` inclusive. -/
def pricePasses (a b : Int) (p : Record) : Bool :=
  match getVal p "price_per_day" with
  | some (Value.vint n) => decide (a ≤ n ∧ n ≤ b)
  | _ => false

theorem matchesAll_price (p : Record) (a b n : Int)
    (hp : getVal p "price_per_day" = some (Value.vint n)) :
    matchesAll p [("price_min", Value.vint a), ("price_max", Value.vint b)]
      true = Except.ok (decide (a ≤ n) && decide (n ≤ b)) := by
  simp only [matchesAll, filterStep, getField, hp, valueLt, valueGt]
  simp
  exact Bool.eq_iff_iff.mpr (by simp [Int.not_lt, and_comm])

theorem get_properties_price (props : List Record) (a b : Int)
    (h : ∀ p ∈ props, ∃ n : Int,
      getVal p "price_per_day" = some (Value.vint n)) :
    get_properties props
        [("price_min", Value.vint a), ("price_max", Value.vint b)] =
      Except.ok (props.filter (pricePasses a b)) := by
  induction props with
  | nil => rfl
  | cons p rest ih =>
    obtain ⟨n, hn⟩ := h p (by simp)
    have hrest := ih (fun q hq => h q (by simp [hq]))
    simp only [get_properties, matchesAll_price p a b n hn, hrest,
      List.filter_cons, pricePasses, hn, Bool.decide_and]

/-!
## `src/database-implementation.py` — the duplicate store module

Its `get_properties` (lines 71–103) applies one list comprehension per
recognized filter key; every comprehension indexes the record directly, so a
record missing the key raises `KeyError`.  The price range applies only when
both `price_min` and `price_max` are present, inclusive on both ends
(`float(p['price_per_day']) >= price_min and <= price_max`); prices are
modelled as integers.
-/

/-- A Python list comprehension `[x for x in l if f(x)]` whose condition can
raise. -/
def exFilter (f : Record → Except String Bool) : List Record →
    Except String (List Record)
  | [] => Except.ok []
  | x :: xs =>
    match f x with
    | Except.error e => Except.error e
    | Except.ok b =>
      match exFilter f xs with
      | Except.error e => Except.error e
      | Except.ok ys => Except.ok (if b then x :: ys else ys)

/-- Python `haystack.startswith(needle)` on character lists. -/
def startsWithL : List Char → List Char → Bool
  | _, [] => true
  | [], _ :: _ => false
  | h :: t, n :: m => h == n && startsWithL t m

/-- Python `needle in haystack` substring test, on character lists. -/
def containsSubL : List Char → List Char → Bool
  | [], n => n.isEmpty
  | h :: t, n => startsWithL (h :: t) n || containsSubL t n

/-- The filter keys recognized by the duplicate module's `get_properties`; a
missing entry means the key is absent from the `filters` dict. -/
structure ImplFilters where
  owner_id : Option Value
  status : Option Value
  verified : Option Value
  price_min : Option Int
  price_max : Option Int
  location : Option String
  property_type : Option Value
deriving DecidableEq, Repr

/-- One equality-comparison comprehension step: `p[key] == value`. -/
def eqFilterStep (key : String) (value : Value) (p : Record) :
    Except String Bool :=
  match getField p key with
  | Except.error e => Except.error e
  | Except.ok pv => Except.ok (pv == value)

/-- The price-range comprehension condition of lines 90–93. -/
def priceRangeStep (a b : Int) (p : Record) : Except String Bool :=
  match getField p "price_per_day" with
  | Except.error e => Except.error e
  | Except.ok (Value.vint n) => Except.ok (decide (a ≤ n) && decide (n ≤ b))
  | Except.ok _ => Except.error "TypeError"

/-- The case-insensitive substring condition of lines 95–97. -/
def locationStep (s : String) (p : Record) : Except String Bool :=
  match getField p "location" with
  | Except.error e => Except.error e
  | Except.ok (Value.vstr t) =>
    Except.ok (containsSubL t.toLower.data s.toLower.data)
  | Except.ok _ => Except.error "AttributeError"

/-- Apply an optional comprehension stage. -/
def applyStage (l : Except String (List Record))
    (st : Option (Record → Except String Bool)) :
    Except String (List Record) :=
  match l with
  | Except.error e => Except.error e
  | Except.ok xs =>
    match st with
    | none => Except.ok xs
    | some f => exFilter f xs

/-- Python `get_properties(filters)` of `src/database-implementation.py`. -/
def get_properties_impl (props : List Record) (f : ImplFilters) :
    Except String (List Record) :=
  let l := Except.ok props
  let l := applyStage l (f.owner_id.map (eqFilterStep "owner_id"))
  let l := applyStage l (f.status.map (eqFilterStep "status"))
  let l := applyStage l (f.verified.map (eqFilterStep "verified"))
  let l := applyStage l
    (match f.price_min, f.price_max with
     | some a, some b => some (priceRangeStep a b)
     | _, _ => none)
  let l := applyStage l (f.location.map locationStep)
  let l := applyStage l (f.property_type.map (eqFilterStep "property_type"))
  l

theorem exFilter_price (props : List Record) (a b : Int)
    (h : ∀ p ∈ props, ∃ n : Int,
      getVal p "price_per_day" = some (Value.vint n)) :
    exFilter (priceRangeStep a b) props =
      Except.ok (props.filter (pricePasses a b)) := by
  induction props with
  | nil => rfl
  | cons p rest ih =>
    obtain ⟨n, hn⟩ := h p (by simp)
    have hrest := ih (fun q hq => h q (by simp [hq]))
    simp only [exFilter, priceRangeStep, getField, hn, hrest,
      List.filter_cons, pricePasses, Bool.decide_and]

theorem get_properties_impl_price (props : List Record) (a b : Int)
    (h : ∀ p ∈ props, ∃ n : Int,
      getVal p "price_per_day" = some (Value.vint n)) :
    get_properties_impl props ⟨none, none, none, some a, some b, none, none⟩ =
      Except.ok (props.filter (pricePasses a b)) := by
  have hx := exFilter_price props a b h
  simp [get_properties_impl, applyStage, hx]

/-- C6: for stores in which every property has a numeric `price_per_day`,
both `get_properties` implementations applied to the filter
`{price_min: a, price_max: b}` keep exactly the records whose price per day
lies within `[a, b]` inclusive.  In particular a property priced 5000 is
included for bounds 1000/6000 and excluded for bounds 6000/10000 (see the
witness). -/
theorem c6_price_range (props : List Record) (a b : Int)
    (h : ∀ p ∈ props, ∃ n : Int,
      getVal p "price_per_day" = some (Value.vint n)) :
    get_properties props
        [("price_min", Value.vint a), ("price_max", Value.vint b)] =
      Except.ok (props.filter (pricePasses a b)) ∧
    get_properties_impl props ⟨none, none, none, some a, some b, none, none⟩ =
      Except.ok (props.filter (pricePasses a b)) :=
  ⟨get_properties_price props a b h, get_properties_impl_price props a b h⟩

/-- Witness for C6: a property priced 5000 (capacity 4) is included by the
1000–6000 range and excluded by the 6000–10000 range, in both
implementations. -/
theorem c6_price_range_witness :
    (get_properties
        [[("id", Value.vint 1), ("price_per_day", Value.vint 5000),
          ("capacity", Value.vint 4)]]
        [("price_min", Value.vint 1000), ("price_max", Value.vint 6000)] =
      Except.ok
        [[("id", Value.vint 1), ("price_per_day", Value.vint 5000),
          ("capacity", Value.vint 4)]]) ∧
    (get_properties
        [[("id", Value.vint 1), ("price_per_day", Value.vint 5000),
          ("capacity", Value.vint 4)]]
        [("price_min", Value.vint 6000), ("price_max", Value.vint 10000)] =
      Except.ok []) ∧
    (get_properties_impl
        [[("id", Value.vint 1), ("price_per_day", Value.vint 5000),
          ("capacity", Value.vint 4)]]
        ⟨none, none, none, some 6000, some 10000, none, none⟩ =
      Except.ok []) := by
  have hnum : ∀ p ∈ [[("id", Value.vint 1),
      ("price_per_day", Value.vint 5000), ("capacity", Value.vint 4)]],
      ∃ n : Int, getVal p "price_per_day" = some (Value.vint n) := by
    intro p hp
    rw [List.mem_singleton] at hp
    subst hp
    exact ⟨5000, rfl⟩
  refine ⟨?_, ?_, ?_⟩
  · have h1 := (c6_price_range _ 1000 6000 hnum).1
    rw [h1]
    rfl
  · have h2 := (c6_price_range _ 6000 10000 hnum).1
    rw [h2]
    rfl
  · have h3 := (c6_price_range _ 6000 10000 hnum).2
    rw [h3]
    rfl

/-!
## `src/utils/database.py` — `update_property` (lines 112–130)

On the first record whose `id` equals `property_id`, the function builds
`existing_data = {'id': ..., 'owner_id': ..., 'created_at': ...}` from the old
record and replaces the record with `{**existing_data, **property_data}`: the
partial data overlays only that three-field skeleton, so any other old field
not re-supplied in `property_data` is dropped.
-/

/-- The replacement record built at lines 118–126. -/
def updatedRecord (prop data : Record) : Except String Record :=
  match getField prop "id" with
  | Except.error e => Except.error e
  | Except.ok i =>
    match getField prop "owner_id" with
    | Except.error e => Except.error e
    | Except.ok o =>
      match getField prop "created_at" with
      | Except.error e => Except.error e
      | Except.ok c =>
        Except.ok (dictMerge
          [("id", i), ("owner_id", o), ("created_at", c)] data)

/-- Python `update_property(property_id, property_data)` of `src/utils/database.py`,
over the in-memory list; returns the Python boolean result together with the
mutated list. -/
def update_property (props : List Record) (pid : Value) (data : Record) :
    Except String (Bool × List Record) :=
  match props with
  | [] => Except.ok (false, [])
  | p :: rest =>
    match getField p "id" with
    | Except.error e => Except.error e
    | Except.ok idv =>
      if idv == pid then
        match updatedRecord p data with
        | Except.error e => Except.error e
        | Except.ok r => Except.ok (true, r :: rest)
      else
        match update_property rest pid data with
        | Except.error e => Except.error e
        | Except.ok (b, rest') => Except.ok (b, p :: rest')

theorem getVal_append (l1 l2 : Record) (k : String) :
    getVal (l1 ++ l2) k =
      match getVal l1 k with
      | some v => some v
      | none => getVal l2 k := by
  induction l1 with
  | nil => rfl
  | cons p t ih =>
    obtain ⟨k', v'⟩ := p
    by_cases h : k' = k
    · simp [getVal, h]
    · simp [getVal, h, ih]

theorem getVal_filter_key (l : Record) (pred : String × Value → Bool)
    (k : String) (h : ∀ v, pred (k, v) = true) :
    getVal (l.filter pred) k = getVal l k := by
  induction l with
  | nil => rfl
  | cons p t ih =>
    obtain ⟨k', v'⟩ := p
    by_cases hk : k' = k
    · subst hk
      rw [List.filter_cons, if_pos (h v')]
      simp [getVal]
    · rw [List.filter_cons]
      by_cases hp : pred (k', v') = true
      · rw [if_pos hp]
        simp [getVal, hk, ih]
      · rw [if_neg hp]
        simp [getVal, hk, ih]

theorem getVal_mergeLeft (a b : Record) (k : String) :
    getVal (a.map (fun p => (p.1, (getVal b p.1).getD p.2))) k =
      (getVal a k).map (fun v => (getVal b k).getD v) := by
  induction a with
  | nil => rfl
  | cons p t ih =>
    obtain ⟨k', v'⟩ := p
    by_cases hk : k' = k
    · subst hk
      simp [getVal]
    · simp [getVal, hk, ih]

/-- Field lookup after a Python dict merge: the right dict wins, the left
dict fills in the rest. -/
theorem getVal_dictMerge (a b : Record) (k : String) :
    getVal (dictMerge a b) k =
      match getVal b k with
      | some v => some v
      | none => getVal a k := by
  rw [dictMerge, getVal_append, getVal_mergeLeft]
  cases ha : getVal a k with
  | some v => cases hb : getVal b k <;> simp [ha, hb]
  | none =>
    rw [getVal_filter_key b _ k (fun v => by simp [ha])]
    cases hb : getVal b k <;> simp [hb]

/-- What the replacement record of `update_property` contains: the partial
data's fields at their new values; `id`, `owner_id`, `created_at` carried over
from the old record when not re-supplied; and nothing else — any other old
field absent from the partial data is gone. -/
theorem updatedRecord_spec (p data r : Record)
    (h : updatedRecord p data = Except.ok r) :
    (getVal data "created_at" = none →
      getVal r "created_at" = getVal p "created_at") ∧
    (∀ k v, getVal data k = some v → getVal r k = some v) ∧
    (∀ k, k ≠ "id" → k ≠ "owner_id" → k ≠ "created_at" →
      getVal data k = none → getVal r k = none) := by
  cases hi : getVal p "id" with
  | none => simp [updatedRecord, getField, hi] at h
  | some i =>
    cases ho : getVal p "owner_id" with
    | none => simp [updatedRecord, getField, hi, ho] at h
    | some o =>
      cases hc : getVal p "created_at" with
      | none => simp [updatedRecord, getField, hi, ho, hc] at h
      | some c =>
        have hr : r = dictMerge
            [("id", i), ("owner_id", o), ("created_at", c)] data := by
          simp [updatedRecord, getField, hi, ho, hc] at h
          exact h.symm
        subst hr
        refine ⟨?_, ?_, ?_⟩
        · intro hd
          rw [getVal_dictMerge, hd]
          simp [getVal, hc]
        · intro k v hk
          rw [getVal_dictMerge, hk]
        · intro k h1 h2 h3 hk
          rw [getVal_dictMerge, hk]
          simp [getVal, Ne.symm h1, Ne.symm h2, Ne.symm h3]

/-- C2: the claim as stated is false — `update_property` of
`src/utils/database.py` drops every old field outside
`{id, owner_id, created_at}` that the partial data does not re-supply.
Updating the single stored property (which has a `title`) with the partial
data `{price_per_day: 5}` succeeds but loses the `title` field. -/
theorem c2_counterexample :
    update_property
        [[("id", Value.vint 1), ("owner_id", Value.vint 2),
          ("created_at", Value.vstr "t0"), ("title", Value.vstr "Nice flat")]]
        (Value.vint 1) [("price_per_day", Value.vint 5)] =
      Except.ok (true,
        [[("id", Value.vint 1), ("owner_id", Value.vint 2),
          ("created_at", Value.vstr "t0"),
          ("price_per_day", Value.vint 5)]]) ∧
    getVal [("id", Value.vint 1), ("owner_id", Value.vint 2),
        ("created_at", Value.vstr "t0"), ("title", Value.vstr "Nice flat")]
      "title" = some (Value.vstr "Nice flat") ∧
    getVal [("id", Value.vint 1), ("owner_id", Value.vint 2),
        ("created_at", Value.vstr "t0"), ("price_per_day", Value.vint 5)]
      "title" = none := by
  exact ⟨rfl, rfl, rfl⟩

/-- C2 (amended): when `update_property` of `src/utils/database.py` succeeds,
the matched record is replaced (other records untouched) by a record holding
exactly the partial data's fields overlaid on the old record's `id`,
`owner_id` and `created_at`; `created_at` keeps its previous value whenever
the partial data does not itself contain `created_at`, fields supplied in the
partial data take their new values, and every other old field is dropped. -/
theorem c2_update_property (props : List Record) (pid : Value) (data : Record)
    (props' : List Record) (hc : getVal data "created_at" = none)
    (h : update_property props pid data = Except.ok (true, props')) :
    ∃ pre p post r, props = pre ++ p :: post ∧ props' = pre ++ r :: post ∧
      getVal p "id" = some pid ∧
      updatedRecord p data = Except.ok r ∧
      getVal r "created_at" = getVal p "created_at" ∧
      (∀ k v, getVal data k = some v → getVal r k = some v) ∧
      (∀ k, k ≠ "id" → k ≠ "owner_id" → k ≠ "created_at" →
        getVal data k = none → getVal r k = none) := by
  induction props generalizing props' with
  | nil => simp [update_property] at h
  | cons p rest ih =>
    rw [update_property] at h
    cases hi : getField p "id" with
    | error e =>
      rw [hi] at h
      exact absurd h (by simp)
    | ok idv =>
      rw [hi] at h
      dsimp only at h
      by_cases hb : (idv == pid) = true
      · rw [if_pos hb] at h
        cases hur : updatedRecord p data with
        | error e =>
          rw [hur] at h
          exact absurd h (by simp)
        | ok r =>
          rw [hur] at h
          simp only [Except.ok.injEq, Prod.mk.injEq] at h
          have hgv : getVal p "id" = some pid := by
            cases hg : getVal p "id" with
            | none => simp [getField, hg] at hi
            | some w =>
              simp [getField, hg] at hi
              rw [hi, eq_of_beq hb]
          obtain ⟨hspec1, hspec2, hspec3⟩ := updatedRecord_spec p data r hur
          exact ⟨[], p, rest, r, rfl, by simp [← h.2], hgv, hur,
            hspec1 hc, hspec2, hspec3⟩
      · rw [if_neg hb] at h
        cases hrec : update_property rest pid data with
        | error e =>
          rw [hrec] at h
          exact absurd h (by simp)
        | ok br =>
          obtain ⟨b2, rest'⟩ := br
          rw [hrec] at h
          simp only [Except.ok.injEq, Prod.mk.injEq] at h
          obtain ⟨hb2, hpr⟩ := h
          rw [hb2] at hrec
          obtain ⟨pre, q, post, r, he1, he2, hid, hur, hf1, hf2, hf3⟩ :=
            ih rest' hrec
          exact ⟨p :: pre, q, post, r, by simp [he1],
            by rw [← hpr, he2]; rfl, hid, hur, hf1, hf2, hf3⟩

/-- Witness for C2: updating a stored property with partial data
`{price_per_day: 5}` (which does not mention `created_at`). -/
theorem c2_update_property_witness :
    ∃ pre p post r,
      [[("id", Value.vint 1), ("owner_id", Value.vint 2),
        ("created_at", Value.vstr "t0"),
        ("title", Value.vstr "Nice flat")]] = pre ++ p :: post ∧
      [[("id", Value.vint 1), ("owner_id", Value.vint 2),
        ("created_at", Value.vstr "t0"),
        ("price_per_day", Value.vint 5)]] = pre ++ r :: post ∧
      getVal p "id" = some (Value.vint 1) ∧
      updatedRecord p [("price_per_day", Value.vint 5)] = Except.ok r ∧
      getVal r "created_at" = getVal p "created_at" ∧
      (∀ k v, getVal [("price_per_day", Value.vint 5)] k = some v →
        getVal r k = some v) ∧
      (∀ k, k ≠ "id" → k ≠ "owner_id" → k ≠ "created_at" →
        getVal [("price_per_day", Value.vint 5)] k = none →
        getVal r k = none) :=
  c2_update_property
    [[("id", Value.vint 1), ("owner_id", Value.vint 2),
      ("created_at", Value.vstr "t0"), ("title", Value.vstr "Nice flat")]]
    (Value.vint 1) [("price_per_day", Value.vint 5)]
    [[("id", Value.vint 1), ("owner_id", Value.vint 2),
      ("created_at", Value.vstr "t0"), ("price_per_day", Value.vint 5)]]
    rfl rfl

/-!
## Persistence: file-operation traces and the retry loop

`save_data` (`src/utils/database.py` lines 28–48) writes `<path>.tmp` and then
`os.replace`s it over the target.  `save_users` (`src/utils/auth.py` lines
27–30), the property write inside `create_property` (`src/utils/database.py`
lines 77–78) and `save_verification_sessions` (`src/video-verification.py`
lines 135–138) all `open(path, 'w')` the target directly.  We record the file
operations each function performs as a trace.
-/

/-- A file-system write operation: a plain in-place write of a path, or an
atomic `os.replace` rename. -/
inductive FsOp where
  | writeFile (path : String)
  | rename (src dst : String)
deriving DecidableEq, Repr

/-- The operations of one successful `save_data` attempt (lines 36–41). -/
def save_data_trace (file_path : String) : List FsOp :=
  [FsOp.writeFile (file_path ++ ".tmp"),
   FsOp.rename (file_path ++ ".tmp") file_path]

/-- The operations of `save_users` (auth.py lines 27–30): one direct write. -/
def save_users_trace : List FsOp := [FsOp.writeFile "data/users.json"]

/-- The persistence step of `create_property` (database.py lines 77–78): one
direct write of the properties file. -/
def create_property_write_trace : List FsOp :=
  [FsOp.writeFile "data/properties.json"]

/-- The operations of `save_verification_sessions` (lines 135–138). -/
def save_verification_sessions_trace : List FsOp :=
  [FsOp.writeFile "data/verification_sessions.json"]

/-- A trace commits atomically to `target`: it writes only a distinct sibling
file and then renames it over the target, so the target is never opened for
in-place writing. -/
def commitsAtomically (t : List FsOp) (target : String) : Prop :=
  ∃ tmp, tmp ≠ target ∧ t = [FsOp.writeFile tmp, FsOp.rename tmp target]

/-- Whether a trace opens the target itself for writing. -/
def writesTargetDirectly (t : List FsOp) (target : String) : Bool :=
  t.contains (FsOp.writeFile target)

/-- Whether a trace performs any atomic rename at all. -/
def hasRename (t : List FsOp) : Bool :=
  t.any (fun op => match op with
    | FsOp.rename _ _ => true
    | _ => false)

/-- C3: the claim as stated is false — `save_users` of `src/utils/auth.py`
persists the users collection with a single direct write of
`data/users.json`, not via a temporary sibling file and atomic rename. -/
theorem c3_counterexample :
    ¬ commitsAtomically save_users_trace "data/users.json" := by
  rintro ⟨tmp, _, ht⟩
  simp [save_users_trace] at ht

/-- C3 (amended): only `save_data` commits a collection by writing a distinct
temporary sibling file and atomically renaming it over the target;
`create_property`'s property write, the auth service's `save_users` and
`save_verification_sessions` each open their target file directly for
writing and perform no rename, so an interruption mid-write can leave a
truncated target. -/
theorem c3_atomic_commit (p : String) :
    commitsAtomically (save_data_trace p) p ∧
    writesTargetDirectly save_users_trace "data/users.json" = true ∧
    hasRename save_users_trace = false ∧
    writesTargetDirectly create_property_write_trace
      "data/properties.json" = true ∧
    hasRename create_property_write_trace = false ∧
    writesTargetDirectly save_verification_sessions_trace
      "data/verification_sessions.json" = true ∧
    hasRename save_verification_sessions_trace = false := by
  refine ⟨⟨p ++ ".tmp", ?_, rfl⟩, rfl, rfl, rfl, rfl, rfl, rfl⟩
  intro heq
  have hlen := congrArg String.length heq
  rw [String.length_append] at hlen
  simp at hlen
  exact absurd hlen (by decide)

/-!
## `save_data` retry loop (lines 28–48)

Each attempt (temp-file write plus rename) either succeeds or raises; the
environment supplies the outcome of attempt `i` as `attemptOk i`.  The loop
makes at most `max_retries` attempts, sleeps `retry_delay_ms` between
consecutive attempts, returns `True` on the first success and returns `False`
(rather than raising) when the last attempt fails.  The model returns the
Python boolean together with the number of sleeps performed.
-/

def max_retries : Nat := 5

def retry_delay_ms : Nat := 500

/-- The `for attempt in range(max_retries)` loop body, from attempt number
`attempt` with `remaining` iterations left. -/
def save_loop (attemptOk : Nat → Bool) : Nat → Nat → Bool × Nat
  | _, 0 => (false, 0)
  | attempt, remaining + 1 =>
    if attemptOk attempt then (true, 0)
    else if remaining = 0 then (false, 0)
    else
      let r := save_loop attemptOk (attempt + 1) remaining
      (r.1, r.2 + 1)

/-- Python `save_data(data, file_path)`: result flag and number of 0.5 s sleeps. -/
def save_data (attemptOk : Nat → Bool) : Bool × Nat :=
  save_loop attemptOk 0 max_retries

theorem save_loop_all_fail (f : Nat → Bool) (rem a : Nat) (hrem : 0 < rem)
    (h : ∀ i, a ≤ i → i < a + rem → f i = false) :
    save_loop f a rem = (false, rem - 1) := by
  induction rem generalizing a with
  | zero => exact absurd hrem (by simp)
  | succ n ih =>
    rw [save_loop, if_neg (by rw [h a le_rfl (by omega)]; simp)]
    by_cases hn : n = 0
    · rw [if_pos hn, hn]
    · rw [if_neg hn]
      have := ih (a + 1) (Nat.pos_of_ne_zero hn)
        (fun i h1 h2 => h i (by omega) (by omega))
      rw [this]
      simp
      omega

theorem save_loop_first_success (f : Nat → Bool) (i : Nat) :
    ∀ rem a, i < rem → f (a + i) = true →
      (∀ j, j < i → f (a + j) = false) →
      save_loop f a rem = (true, i) := by
  induction i with
  | zero =>
    intro rem a hi hs _
    obtain ⟨m, rfl⟩ := Nat.exists_eq_succ_of_ne_zero (by omega : rem ≠ 0)
    rw [save_loop, if_pos (by simpa using hs)]
  | succ n ih =>
    intro rem a hi hs hf
    obtain ⟨m, rfl⟩ := Nat.exists_eq_succ_of_ne_zero (by omega : rem ≠ 0)
    rw [save_loop, if_neg (by
        have h0 := hf 0 (by omega)
        rw [Nat.add_zero] at h0
        simp [h0]),
      if_neg (by omega : ¬ m = 0)]
    have := ih m (a + 1) (by omega)
      (by rw [show a + 1 + n = a + (n + 1) by omega]; exact hs)
      (fun j hj => by
        rw [show a + 1 + j = a + (j + 1) by omega]
        exact hf (j + 1) (by omega))
    rw [this]

/-- C5: when every attempt fails, `save_data` makes exactly `max_retries = 5`
attempts separated by four `retry_delay_ms = 500` ms sleeps and then reports
failure by returning `False` (it never raises); when attempt `i` is the first
to succeed it returns `True` after `i` sleeps. -/
theorem c5_save_data_retries (f : Nat → Bool) :
    ((∀ i, i < max_retries → f i = false) →
      save_data f = (false, max_retries - 1)) ∧
    (∀ i, i < max_retries → f i = true → (∀ j, j < i → f j = false) →
      save_data f = (true, i)) ∧
    max_retries = 5 ∧ retry_delay_ms = 500 := by
  refine ⟨?_, ?_, rfl, rfl⟩
  · intro h
    exact save_loop_all_fail f max_retries 0 (by decide)
      (fun i h1 h2 => h i (by omega))
  · intro i hi hs hf
    exact save_loop_first_success f i max_retries 0 hi (by simpa using hs)
      (fun j hj => by simpa using hf j hj)

/-- Witness for C5: all five attempts failing yields `(False, 4 sleeps)`;
first success at attempt 2 yields `(True, 2 sleeps)`. -/
theorem c5_save_data_retries_witness :
    save_data (fun _ => false) = (false, 4) ∧
    save_data (fun i => decide (2 ≤ i)) = (true, 2) := by
  constructor
  · exact (c5_save_data_retries (fun _ => false)).1 (fun i _ => rfl)
  · exact (c5_save_data_retries (fun i => decide (2 ≤ i))).2.1 2
      (by decide) (by decide) (fun j hj => by
        interval_cases j <;> decide)

/-!
## `load_data` / `load_users` (database.py 17–26, auth.py 15–25)

The file is either missing, present and parsable (yielding records), or
present but unparsable.  Both loaders return the parsed records in the good
case and otherwise write an empty collection to the file and return `[]`.
-/

/-- The state of a collection file as `json.load` sees it. -/
inductive FileContent where
  | missing
  | parsed (records : List Record)
  | unparsable
deriving DecidableEq, Repr

/-- Python `load_data(file_path)`: returns the records and the resulting file
state. -/
def load_data : FileContent → List Record × FileContent
  | FileContent.parsed rs => (rs, FileContent.parsed rs)
  | FileContent.missing => ([], FileContent.parsed [])
  | FileContent.unparsable => ([], FileContent.parsed [])

/-- Python `load_users()` of `src/utils/auth.py`: identical handling for
`data/users.json`. -/
def load_users : FileContent → List Record × FileContent
  | FileContent.parsed rs => (rs, FileContent.parsed rs)
  | FileContent.missing => ([], FileContent.parsed [])
  | FileContent.unparsable => ([], FileContent.parsed [])

/-- C9: both loaders return the persisted collection when the file exists and
parses (leaving it untouched), and return an empty sequence when the file is
absent or unparsable; in the absent case the file is created holding an empty
collection. -/
theorem c9_load_semantics (rs : List Record) :
    load_data (FileContent.parsed rs) = (rs, FileContent.parsed rs) ∧
    load_data FileContent.missing = ([], FileContent.parsed []) ∧
    load_data FileContent.unparsable = ([], FileContent.parsed []) ∧
    load_users (FileContent.parsed rs) = (rs, FileContent.parsed rs) ∧
    load_users FileContent.missing = ([], FileContent.parsed []) ∧
    load_users FileContent.unparsable = ([], FileContent.parsed []) :=
  ⟨rfl, rfl, rfl, rfl, rfl, rfl⟩

/-!
## `src/utils/auth.py` — credential and token verification

`hash_password` (SHA-256 hex digest of an external library) is passed in as an
abstract function `hashF`; nothing is assumed about it.  The PyJWT
collaborator is modelled at its interface: a token carries its payload and the
key it was signed with; decoding against a key succeeds only for a token
signed with that same key, and rejects a token whose `exp` claim is at or
before the current time with `ExpiredSignatureError` (checked after the
signature, as PyJWT does).  Timestamps are integer seconds.
-/

/-- Line 9: the JWT secret, with its hard-coded fallback default. -/
def SECRET_KEY : String := "your-secret-key"

/-- The claims embedded in a session token (auth.py lines 67–71). -/
structure Payload where
  user_id : Value
  email : Value
  exp : Int
deriving DecidableEq, Repr

/-- A signed token: payload plus signing key. -/
structure Token where
  payload : Payload
  key : String
deriving DecidableEq, Repr

/-- Python `jwt.encode(payload, key, algorithm="HS256")`. -/
def jwt_encode (p : Payload) (key : String) : Token := ⟨p, key⟩

/-- Python `jwt.decode(token, key, algorithms=["HS256"])` at current time `now`. -/
def jwt_decode (t : Token) (key : String) (now : Int) :
    Except String Payload :=
  if t.key ≠ key then Except.error "InvalidTokenError"
  else if t.payload.exp ≤ now then Except.error "ExpiredSignatureError"
  else Except.ok t.payload

/-- Python `verify_user(email, password)` of auth.py lines 58–75, over the loaded
user list: scans for the first user whose `email` and `password_hash` both
match, issuing a token with a 24-hour expiry on success. -/
def verify_user (hashF : String → String) (now : Int) :
    List Record → String → String →
    Except String (Bool × Option Token × Option Record)
  | [], _, _ => Except.ok (false, none, none)
  | u :: rest, email, password =>
    match getField u "email" with
    | Except.error e => Except.error e
    | Except.ok ev =>
      if ev == Value.vstr email then
        match getField u "password_hash" with
        | Except.error e => Except.error e
        | Except.ok ph =>
          if ph == Value.vstr (hashF password) then
            match getField u "id" with
            | Except.error e => Except.error e
            | Except.ok uid =>
              Except.ok (true,
                some (jwt_encode ⟨uid, ev, now + 24 * 3600⟩ SECRET_KEY),
                some u)
          else verify_user hashF now rest email password
      else verify_user hashF now rest email password

/-- Python `verify_token(token)` of auth.py lines 77–85 at current time `now`:
`(ok, user_id, payload-or-error-message)`. -/
def verify_token (now : Int) (token : Token) :
    Bool × Option Value × (Payload ⊕ String) :=
  match jwt_decode token SECRET_KEY now with
  | Except.ok p => (true, some p.user_id, Sum.inl p)
  | Except.error e =>
    if e = "ExpiredSignatureError" then (false, none, Sum.inr "Token expired")
    else (false, none, Sum.inr "Invalid token")

/-- C4: over any user store whose records carry string `email` and
`password_hash` fields and an `id`, authentication succeeds iff some stored
user has the given email and the hash of the given password; on success the
issued token is signed with the secret and expires 24 hours out; on failure
no token and no user are returned; and any token whose embedded expiry has
passed is rejected by `verify_token` with no user id. -/
theorem c4_auth (hashF : String → String) (now : Int) (users : List Record)
    (email password : String)
    (hwf : ∀ u ∈ users, (∃ s, getVal u "email" = some (Value.vstr s)) ∧
      (∃ s, getVal u "password_hash" = some (Value.vstr s)) ∧
      (∃ i, getVal u "id" = some i)) :
    (∃ res, verify_user hashF now users email password = Except.ok res ∧
      (res.1 = true ↔ ∃ u ∈ users,
        getVal u "email" = some (Value.vstr email) ∧
        getVal u "password_hash" = some (Value.vstr (hashF password))) ∧
      (res.1 = false → res.2.1 = none ∧ res.2.2 = none) ∧
      (∀ t, res.2.1 = some t →
        t.payload.exp = now + 24 * 3600 ∧ t.key = SECRET_KEY)) ∧
    (∀ t : Token, t.payload.exp < now →
      (verify_token now t).1 = false ∧ (verify_token now t).2.1 = none) := by
  constructor
  · induction users with
    | nil =>
      refine ⟨(false, none, none), rfl, ?_, fun _ => ⟨rfl, rfl⟩, ?_⟩
      · simp
      · intro t ht
        simp at ht
    | cons u rest ih =>
      obtain ⟨⟨se, he⟩, ⟨sp, hp⟩, ⟨i, hid⟩⟩ := hwf u (by simp)
      have hrest := ih (fun q hq => hwf q (by simp [hq]))
      rw [verify_user, getField, he]
      dsimp only
      by_cases hemail : se = email
      · subst hemail
        rw [if_pos (by simp), getField, hp]
        dsimp only
        by_cases hpass : sp = hashF password
        · subst hpass
          rw [if_pos (by simp), getField, hid]
          refine ⟨_, rfl, ?_, ?_, ?_⟩
          · simp only [true_iff]
            exact ⟨u, by simp, he, hp⟩
          · intro hfalse
            simp at hfalse
          · intro t ht
            simp only [Option.some.injEq] at ht
            subst ht
            exact ⟨rfl, rfl⟩
        · rw [if_neg (by simp [hpass])]
          obtain ⟨res, hres, hiff, himp, htok⟩ := hrest
          refine ⟨res, hres, ?_, himp, htok⟩
          rw [hiff]
          constructor
          · rintro ⟨q, hq, hqe, hqp⟩
            exact ⟨q, by simp [hq], hqe, hqp⟩
          · rintro ⟨q, hq, hqe, hqp⟩
            rcases List.mem_cons.mp hq with rfl | hq'
            · rw [hp] at hqp
              simp at hqp
              exact absurd hqp hpass
            · exact ⟨q, hq', hqe, hqp⟩
      · rw [if_neg (by simp [hemail])]
        obtain ⟨res, hres, hiff, himp, htok⟩ := hrest
        refine ⟨res, hres, ?_, himp, htok⟩
        rw [hiff]
        constructor
        · rintro ⟨q, hq, hqe, hqp⟩
          exact ⟨q, by simp [hq], hqe, hqp⟩
        · rintro ⟨q, hq, hqe, hqp⟩
          rcases List.mem_cons.mp hq with rfl | hq'
          · rw [he] at hqe
            simp at hqe
            exact absurd hqe hemail
          · exact ⟨q, hq', hqe, hqp⟩
  · intro t ht
    have hexp : t.payload.exp ≤ now := le_of_lt ht
    rw [verify_token, jwt_decode]
    by_cases hk : t.key = SECRET_KEY
    · rw [if_neg (by simp [hk]), if_pos hexp]
      exact ⟨rfl, rfl⟩
    · rw [if_pos (by simp [hk])]
      exact ⟨rfl, rfl⟩

/-- Witness for C4: a one-user store where `alice@example.com` / `pw123`
authenticates (the hash function is instantiated concretely), applied at
time 0. -/
theorem c4_auth_witness :
    (∃ res, verify_user (fun s => s ++ "#h") 0
        [[("id", Value.vint 1), ("email", Value.vstr "alice@example.com"),
          ("password_hash", Value.vstr "pw123#h")]]
        "alice@example.com" "pw123" = Except.ok res ∧
      (res.1 = true ↔ ∃ u ∈
          [[("id", Value.vint 1), ("email", Value.vstr "alice@example.com"),
            ("password_hash", Value.vstr "pw123#h")]],
        getVal u "email" = some (Value.vstr "alice@example.com") ∧
        getVal u "password_hash" =
          some (Value.vstr ((fun s => s ++ "#h") "pw123"))) ∧
      (res.1 = false → res.2.1 = none ∧ res.2.2 = none) ∧
      (∀ t, res.2.1 = some t →
        t.payload.exp = 0 + 24 * 3600 ∧ t.key = SECRET_KEY)) ∧
    (∀ t : Token, t.payload.exp < 0 →
      (verify_token 0 t).1 = false ∧ (verify_token 0 t).2.1 = none) :=
  c4_auth (fun s => s ++ "#h") 0
    [[("id", Value.vint 1), ("email", Value.vstr "alice@example.com"),
      ("password_hash", Value.vstr "pw123#h")]]
    "alice@example.com" "pw123"
    (fun u hu => by
      rw [List.mem_singleton] at hu
      subst hu
      exact ⟨⟨"alice@example.com", rfl⟩, ⟨"pw123#h", rfl⟩,
        ⟨Value.vint 1, rfl⟩⟩)

/-!
## Review creation

`create_review` of `src/utils/database.py` (lines 184–199) checks only that
the five required fields are present, fills in `created_at` / `verified`
defaults, and appends; `create_review` of `src/database-implementation.py`
(lines 177–191) performs no validation at all and merges the caller's data
over generated defaults.  Neither checks the rating's range.
-/

/-- Line 189 of `src/utils/database.py`. -/
def required_review_fields : List String :=
  ["id", "property_id", "user_id", "rating", "comment"]

/-- Python `create_review(review_data)` of `src/utils/database.py`, over the loaded
review list; `now` is the generated timestamp. -/
def create_review (reviews : List Record) (review_data : Record)
    (now : Value) : Bool × List Record :=
  if required_review_fields.all (fun k => (getVal review_data k).isSome) then
    (true, reviews ++
      [setDefault (setDefault review_data "created_at" now)
        "verified" (Value.vbool false)])
  else (false, reviews)

/-- Python `create_review(review_data)` of `src/database-implementation.py`;
`uuid` and `now` are the generated id and timestamp. -/
def create_review_impl (reviews : List Record) (review_data : Record)
    (uuid now : Value) : Record × List Record :=
  let new_review := dictMerge
    [("id", uuid), ("created_at", now),
     ("blockchain_registered", Value.vbool false),
     ("transaction_hash", Value.vnull)] review_data
  (new_review, reviews ++ [new_review])

theorem getVal_setDefault_of_some (r : Record) (k k' : String) (v w : Value)
    (h : getVal r k' = some w) : getVal (setDefault r k v) k' = some w := by
  rw [setDefault]
  cases hk : getVal r k
  · rw [getVal_append, h]
  · exact h

/-- C7: the claim as stated is false — `create_review` accepts and stores a
review whose rating is 6, outside 1–5, because it validates only field
presence. -/
theorem c7_counterexample :
    create_review []
        [("id", Value.vint 1), ("property_id", Value.vint 2),
         ("user_id", Value.vint 3), ("rating", Value.vint 6),
         ("comment", Value.vstr "great")] (Value.vstr "t") =
      (true,
        [[("id", Value.vint 1), ("property_id", Value.vint 2),
          ("user_id", Value.vint 3), ("rating", Value.vint 6),
          ("comment", Value.vstr "great"), ("created_at", Value.vstr "t"),
          ("verified", Value.vbool false)]]) ∧
    getVal [("id", Value.vint 1), ("property_id", Value.vint 2),
        ("user_id", Value.vint 3), ("rating", Value.vint 6),
        ("comment", Value.vstr "great"), ("created_at", Value.vstr "t"),
        ("verified", Value.vbool false)] "rating" = some (Value.vint 6) ∧
    ¬ ((1 : Int) ≤ 6 ∧ (6 : Int) ≤ 5) := by
  exact ⟨rfl, rfl, by decide⟩

/-- C7 (amended): both `create_review` implementations store the
caller-supplied rating unchanged, whatever it is; `src/utils/database.py`
only requires the five fields to be present, and the duplicate module
validates nothing.  The 1–5 bound is enforced solely by the UI slider in
`main-app.py`, not by the review creation operation. -/
theorem c7_rating_not_validated (reviews : List Record) (data : Record)
    (now uuid v : Value)
    (hall : required_review_fields.all
      (fun k => (getVal data k).isSome) = true)
    (hr : getVal data "rating" = some v) :
    (∃ d, create_review reviews data now = (true, reviews ++ [d]) ∧
      getVal d "rating" = some v) ∧
    getVal (create_review_impl reviews data uuid now).1 "rating" = some v := by
  constructor
  · refine ⟨_, by rw [create_review, if_pos hall], ?_⟩
    exact getVal_setDefault_of_some _ _ _ _ _
      (getVal_setDefault_of_some _ _ _ _ _ hr)
  · rw [create_review_impl]
    dsimp only
    rw [getVal_dictMerge, hr]

/-- Witness for C7: a fully-populated review with rating 4 is stored with
rating 4 by both implementations. -/
theorem c7_rating_not_validated_witness :
    (∃ d, create_review []
        [("id", Value.vint 1), ("property_id", Value.vint 2),
         ("user_id", Value.vint 3), ("rating", Value.vint 4),
         ("comment", Value.vstr "nice")] (Value.vstr "t") =
      (true, [] ++ [d]) ∧ getVal d "rating" = some (Value.vint 4)) ∧
    getVal (create_review_impl []
        [("id", Value.vint 1), ("property_id", Value.vint 2),
         ("user_id", Value.vint 3), ("rating", Value.vint 4),
         ("comment", Value.vstr "nice")]
        (Value.vstr "u") (Value.vstr "t")).1 "rating" =
      some (Value.vint 4) :=
  c7_rating_not_validated []
    [("id", Value.vint 1), ("property_id", Value.vint 2),
     ("user_id", Value.vint 3), ("rating", Value.vint 4),
     ("comment", Value.vstr "nice")]
    (Value.vstr "t") (Value.vstr "u") (Value.vint 4) rfl rfl

/-!
## `src/video-verification.py` — verification sessions

`complete_verification_session(session_id, verified)` (lines 153–165) sets
`status`, `verified` and `completed_at` on the first session whose `id`
matches, then saves; `get_verification_session` (lines 167–175) returns the
first match or `None`.
-/

theorem getVal_setField_eq (r : Record) (k : String) (v : Value) :
    getVal (setField r k v) k = some v := by
  induction r with
  | nil => simp [setField, getVal]
  | cons p t ih =>
    obtain ⟨k', v'⟩ := p
    by_cases h : k' = k
    · simp [setField, h, getVal]
    · simp [setField, h, getVal, ih]

theorem getVal_setField_ne (r : Record) (k k' : String) (v : Value)
    (h : k' ≠ k) : getVal (setField r k v) k' = getVal r k' := by
  induction r with
  | nil => simp [setField, getVal, Ne.symm h]
  | cons p t ih =>
    obtain ⟨k'', v''⟩ := p
    by_cases h2 : k'' = k
    · subst h2
      simp [setField, getVal, Ne.symm h]
    · by_cases h3 : k'' = k'
      · subst h3
        simp [setField, h2, getVal]
      · simp [setField, h2, getVal, h3, ih]

/-- The three field assignments of lines 159–161. -/
def sess_update (s : Record) (b : Bool) (t : Value) : Record :=
  setField (setField (setField s "status" (Value.vstr "completed"))
    "verified" (Value.vbool b)) "completed_at" t

/-- Python `complete_verification_session(session_id, verified)` over the loaded
session list; `now` is the completion timestamp. -/
def complete_verification_session (sessions : List Record) (sid : Value)
    (verified : Bool) (now : Value) : Except String (Bool × List Record) :=
  match sessions with
  | [] => Except.ok (false, [])
  | s :: rest =>
    match getField s "id" with
    | Except.error e => Except.error e
    | Except.ok idv =>
      if idv == sid then
        Except.ok (true, sess_update s verified now :: rest)
      else
        match complete_verification_session rest sid verified now with
        | Except.error e => Except.error e
        | Except.ok (b, rest') => Except.ok (b, s :: rest')

/-- Python `get_verification_session(session_id)` over the loaded session list. -/
def get_verification_session (sessions : List Record) (sid : Value) :
    Except String (Option Record) :=
  match sessions with
  | [] => Except.ok none
  | s :: rest =>
    match getField s "id" with
    | Except.error e => Except.error e
    | Except.ok idv =>
      if idv == sid then Except.ok (some s)
      else get_verification_session rest sid

theorem exists_first_match (sessions : List Record) (sid : Value)
    (hid : ∀ s ∈ sessions, ∃ v, getVal s "id" = some v)
    (hex : ∃ s ∈ sessions, getVal s "id" = some sid) :
    ∃ pre s post, sessions = pre ++ s :: post ∧
      (∀ q ∈ pre, ∃ v, getVal q "id" = some v ∧ v ≠ sid) ∧
      getVal s "id" = some sid := by
  induction sessions with
  | nil => simp at hex
  | cons s rest ih =>
    obtain ⟨v, hv⟩ := hid s (by simp)
    by_cases h : v = sid
    · exact ⟨[], s, rest, rfl, by simp, by rw [hv, h]⟩
    · have hex' : ∃ q ∈ rest, getVal q "id" = some sid := by
        obtain ⟨q, hq, hqs⟩ := hex
        rcases List.mem_cons.mp hq with rfl | hq'
        · rw [hv] at hqs
          simp at hqs
          exact absurd hqs h
        · exact ⟨q, hq', hqs⟩
      obtain ⟨pre, s0, post, he, hpre, hs0⟩ :=
        ih (fun q hq => hid q (by simp [hq])) hex'
      refine ⟨s :: pre, s0, post, by rw [he]; rfl, ?_, hs0⟩
      intro q hq
      rcases List.mem_cons.mp hq with rfl | hq'
      · exact ⟨v, hv, h⟩
      · exact hpre q hq'

theorem complete_eq (pre : List Record) (s : Record) (post : List Record)
    (sid : Value) (b : Bool) (t : Value)
    (hpre : ∀ q ∈ pre, ∃ v, getVal q "id" = some v ∧ v ≠ sid)
    (hs : getVal s "id" = some sid) :
    complete_verification_session (pre ++ s :: post) sid b t =
      Except.ok (true, pre ++ sess_update s b t :: post) := by
  induction pre with
  | nil =>
    rw [List.nil_append, complete_verification_session, getField, hs]
    dsimp only
    rw [if_pos (by simp)]
    rfl
  | cons q pre' ih =>
    obtain ⟨v, hv, hne⟩ := hpre q (by simp)
    rw [List.cons_append, complete_verification_session, getField, hv]
    dsimp only
    rw [if_neg (by simp [hne]),
      ih (fun q' hq' => hpre q' (by simp [hq']))]
    rfl

theorem get_session_eq (pre : List Record) (s : Record) (post : List Record)
    (sid : Value)
    (hpre : ∀ q ∈ pre, ∃ v, getVal q "id" = some v ∧ v ≠ sid)
    (hs : getVal s "id" = some sid) :
    get_verification_session (pre ++ s :: post) sid = Except.ok (some s) := by
  induction pre with
  | nil =>
    rw [List.nil_append, get_verification_session, getField, hs]
    dsimp only
    rw [if_pos (by simp)]
  | cons q pre' ih =>
    obtain ⟨v, hv, hne⟩ := hpre q (by simp)
    rw [List.cons_append, get_verification_session, getField, hv]
    dsimp only
    rw [if_neg (by simp [hne]),
      ih (fun q' hq' => hpre q' (by simp [hq']))]

/-- C8: completing an existing session twice with `verified=true` succeeds
both times, and after either one or two calls the session read back by id
has `status = "completed"` and `verified = true` — the two-call end state of
those fields equals the one-call end state. -/
theorem c8_complete_idempotent (sessions : List Record) (sid : Value)
    (t1 t2 : Value)
    (hid : ∀ s ∈ sessions, ∃ v, getVal s "id" = some v)
    (hex : ∃ s ∈ sessions, getVal s "id" = some sid) :
    ∃ l1 l2,
      complete_verification_session sessions sid true t1 =
        Except.ok (true, l1) ∧
      complete_verification_session l1 sid true t2 =
        Except.ok (true, l2) ∧
      (∃ s1, get_verification_session l1 sid = Except.ok (some s1) ∧
        getVal s1 "status" = some (Value.vstr "completed") ∧
        getVal s1 "verified" = some (Value.vbool true)) ∧
      (∃ s2, get_verification_session l2 sid = Except.ok (some s2) ∧
        getVal s2 "status" = some (Value.vstr "completed") ∧
        getVal s2 "verified" = some (Value.vbool true)) := by
  obtain ⟨pre, s, post, rfl, hpre, hs⟩ := exists_first_match sessions sid hid hex
  have hid1 : getVal (sess_update s true t1) "id" = some sid := by
    rw [sess_update, getVal_setField_ne _ _ _ _ (by decide),
      getVal_setField_ne _ _ _ _ (by decide),
      getVal_setField_ne _ _ _ _ (by decide), hs]
  refine ⟨pre ++ sess_update s true t1 :: post,
    pre ++ sess_update (sess_update s true t1) true t2 :: post,
    complete_eq pre s post sid true t1 hpre hs,
    complete_eq pre (sess_update s true t1) post sid true t2 hpre hid1,
    ⟨sess_update s true t1, get_session_eq pre _ post sid hpre hid1, ?_, ?_⟩,
    ⟨sess_update (sess_update s true t1) true t2,
      get_session_eq pre _ post sid hpre (by
        rw [sess_update, getVal_setField_ne _ _ _ _ (by decide),
          getVal_setField_ne _ _ _ _ (by decide),
          getVal_setField_ne _ _ _ _ (by decide), hid1]), ?_, ?_⟩⟩
  · rw [sess_update, getVal_setField_ne _ _ _ _ (by decide),
      getVal_setField_ne _ _ _ _ (by decide), getVal_setField_eq]
  · rw [sess_update, getVal_setField_ne _ _ _ _ (by decide),
      getVal_setField_eq]
  · rw [sess_update, getVal_setField_ne _ _ _ _ (by decide),
      getVal_setField_ne _ _ _ _ (by decide), getVal_setField_eq]
  · rw [sess_update, getVal_setField_ne _ _ _ _ (by decide),
      getVal_setField_eq]

/-- Witness for C8: a one-session store completed twice with distinct
completion timestamps. -/
theorem c8_complete_idempotent_witness :
    ∃ l1 l2,
      complete_verification_session
          [[("id", Value.vint 9), ("property_id", Value.vint 1),
            ("status", Value.vstr "pending")]]
          (Value.vint 9) true (Value.vstr "T1") = Except.ok (true, l1) ∧
      complete_verification_session l1 (Value.vint 9) true
          (Value.vstr "T2") = Except.ok (true, l2) ∧
      (∃ s1, get_verification_session l1 (Value.vint 9) =
          Except.ok (some s1) ∧
        getVal s1 "status" = some (Value.vstr "completed") ∧
        getVal s1 "verified" = some (Value.vbool true)) ∧
      (∃ s2, get_verification_session l2 (Value.vint 9) =
          Except.ok (some s2) ∧
        getVal s2 "status" = some (Value.vstr "completed") ∧
        getVal s2 "verified" = some (Value.vbool true)) :=
  c8_complete_idempotent
    [[("id", Value.vint 9), ("property_id", Value.vint 1),
      ("status", Value.vstr "pending")]]
    (Value.vint 9) (Value.vstr "T1") (Value.vstr "T2")
    (fun s hsm => by
      rw [List.mem_singleton] at hsm
      subst hsm
      exact ⟨Value.vint 9, rfl⟩)
    ⟨[("id", Value.vint 9), ("property_id", Value.vint 1),
      ("status", Value.vstr "pending")], by simp, rfl⟩

/-!
## `src/utils/auth.py` — user update operations (lines 87–148)

`update_user_role`, `update_user_profile` and `update_user_wallet` each loop
with `break` over the users, mutate the first match, then unconditionally call
`save_users` and `return True` — even when nothing matched.  `update_kyc_status`
instead saves and returns `True` inside the loop and returns `False` (without
saving) when no user matches.  Each result below is
`(flag, users, file-written)`.
-/

/-- The `for user in users: if user['id'] == user_id: ...; break` pattern:
apply `f` to the first matching user. -/
def set_first (users : List Record) (uid : Value) (f : Record → Record) :
    Except String (List Record) :=
  match users with
  | [] => Except.ok []
  | u :: rest =>
    match getField u "id" with
    | Except.error e => Except.error e
    | Except.ok idv =>
      if idv == uid then Except.ok (f u :: rest)
      else
        match set_first rest uid f with
        | Except.error e => Except.error e
        | Except.ok rest' => Except.ok (u :: rest')

/-- Python `update_user_role(user_id, new_role)` (lines 120–128). -/
def update_user_role (users : List Record) (uid role : Value) :
    Except String (Bool × List Record × Bool) :=
  match set_first users uid (fun u => setField u "user_type" role) with
  | Except.error e => Except.error e
  | Except.ok users' => Except.ok (true, users', true)

/-- Python `update_user_profile(user_id, profile_data)` (lines 130–138). -/
def update_user_profile (users : List Record) (uid : Value)
    (profile_data : Record) : Except String (Bool × List Record × Bool) :=
  match set_first users uid (fun u => dictMerge u profile_data) with
  | Except.error e => Except.error e
  | Except.ok users' => Except.ok (true, users', true)

/-- Python `update_user_wallet(user_id, wallet_address)` (lines 140–148). -/
def update_user_wallet (users : List Record) (uid wallet : Value) :
    Except String (Bool × List Record × Bool) :=
  match set_first users uid (fun u => setField u "wallet_address" wallet) with
  | Except.error e => Except.error e
  | Except.ok users' => Except.ok (true, users', true)

/-- Python `update_kyc_status(user_id, verified)` (lines 87–97): saves and returns
`True` on the first match, returns `False` without saving otherwise. -/
def update_kyc_status (users : List Record) (uid verified : Value) :
    Except String (Bool × List Record × Bool) :=
  match users with
  | [] => Except.ok (false, [], false)
  | u :: rest =>
    match getField u "id" with
    | Except.error e => Except.error e
    | Except.ok idv =>
      if idv == uid then
        Except.ok (true, setField u "kyc_verified" verified :: rest, true)
      else
        match update_kyc_status rest uid verified with
        | Except.error e => Except.error e
        | Except.ok (b, rest', w) => Except.ok (b, u :: rest', w)

theorem set_first_ok (users : List Record) (uid : Value)
    (f : Record → Record)
    (hid : ∀ u ∈ users, ∃ w, getVal u "id" = some w) :
    ∃ users', set_first users uid f = Except.ok users' := by
  induction users with
  | nil => exact ⟨[], rfl⟩
  | cons u rest ih =>
    obtain ⟨w, hw⟩ := hid u (by simp)
    obtain ⟨rest', hrest⟩ := ih (fun q hq => hid q (by simp [hq]))
    rw [set_first, getField, hw]
    dsimp only
    by_cases hb : (w == uid) = true
    · rw [if_pos hb]
      exact ⟨f u :: rest, rfl⟩
    · rw [if_neg hb, hrest]
      exact ⟨u :: rest', rfl⟩

theorem set_first_no_match (users : List Record) (uid : Value)
    (f : Record → Record)
    (hid : ∀ u ∈ users, ∃ w, getVal u "id" = some w)
    (hno : ∀ u ∈ users, getVal u "id" ≠ some uid) :
    set_first users uid f = Except.ok users := by
  induction users with
  | nil => rfl
  | cons u rest ih =>
    obtain ⟨w, hw⟩ := hid u (by simp)
    rw [set_first, getField, hw]
    dsimp only
    rw [if_neg (by
        simp only [beq_iff_eq]
        intro heq
        exact hno u (by simp) (by rw [hw, heq])),
      ih (fun q hq => hid q (by simp [hq]))
        (fun q hq => hno q (by simp [hq]))]

theorem update_kyc_no_match (users : List Record) (uid verified : Value)
    (hid : ∀ u ∈ users, ∃ w, getVal u "id" = some w)
    (hno : ∀ u ∈ users, getVal u "id" ≠ some uid) :
    update_kyc_status users uid verified = Except.ok (false, users, false) := by
  induction users with
  | nil => rfl
  | cons u rest ih =>
    obtain ⟨w, hw⟩ := hid u (by simp)
    rw [update_kyc_status, getField, hw]
    dsimp only
    rw [if_neg (by
        simp only [beq_iff_eq]
        intro heq
        exact hno u (by simp) (by rw [hw, heq])),
      ih (fun q hq => hid q (by simp [hq]))
        (fun q hq => hno q (by simp [hq]))]

/-- C10: over any user store whose records have `id` fields, the role,
profile and wallet-address updates return `True` and rewrite the users file
for every input; in particular, when no user has the given id they return
`True`, leave the collection unchanged and still write the file — while
`update_kyc_status` on the same input returns `False` and does not write. -/
theorem c10_user_updates (users : List Record)
    (uid role wallet kyc : Value) (profile : Record)
    (hid : ∀ u ∈ users, ∃ w, getVal u "id" = some w) :
    (∃ us1, update_user_role users uid role = Except.ok (true, us1, true)) ∧
    (∃ us2, update_user_profile users uid profile =
      Except.ok (true, us2, true)) ∧
    (∃ us3, update_user_wallet users uid wallet =
      Except.ok (true, us3, true)) ∧
    ((∀ u ∈ users, getVal u "id" ≠ some uid) →
      update_user_role users uid role = Except.ok (true, users, true) ∧
      update_user_profile users uid profile =
        Except.ok (true, users, true) ∧
      update_user_wallet users uid wallet = Except.ok (true, users, true) ∧
      update_kyc_status users uid kyc = Except.ok (false, users, false)) := by
  obtain ⟨us1, h1⟩ := set_first_ok users uid
    (fun u => setField u "user_type" role) hid
  obtain ⟨us2, h2⟩ := set_first_ok users uid
    (fun u => dictMerge u profile) hid
  obtain ⟨us3, h3⟩ := set_first_ok users uid
    (fun u => setField u "wallet_address" wallet) hid
  refine ⟨⟨us1, by rw [update_user_role, h1]⟩,
    ⟨us2, by rw [update_user_profile, h2]⟩,
    ⟨us3, by rw [update_user_wallet, h3]⟩, ?_⟩
  intro hno
  exact ⟨by rw [update_user_role, set_first_no_match users uid _ hid hno],
    by rw [update_user_profile, set_first_no_match users uid _ hid hno],
    by rw [update_user_wallet, set_first_no_match users uid _ hid hno],
    update_kyc_no_match users uid kyc hid hno⟩

/-- Witness for C10: a one-user store updated with an id that matches no
user. -/
theorem c10_user_updates_witness :
    (∃ us1, update_user_role [[("id", Value.vint 1)]] (Value.vint 2)
      (Value.vstr "owner") = Except.ok (true, us1, true)) ∧
    (∃ us2, update_user_profile [[("id", Value.vint 1)]] (Value.vint 2)
      [("full_name", Value.vstr "A")] = Except.ok (true, us2, true)) ∧
    (∃ us3, update_user_wallet [[("id", Value.vint 1)]] (Value.vint 2)
      (Value.vstr "0xabc") = Except.ok (true, us3, true)) ∧
    ((∀ u ∈ [[("id", Value.vint 1)]],
        getVal u "id" ≠ some (Value.vint 2)) →
      update_user_role [[("id", Value.vint 1)]] (Value.vint 2)
        (Value.vstr "owner") =
        Except.ok (true, [[("id", Value.vint 1)]], true) ∧
      update_user_profile [[("id", Value.vint 1)]] (Value.vint 2)
        [("full_name", Value.vstr "A")] =
        Except.ok (true, [[("id", Value.vint 1)]], true) ∧
      update_user_wallet [[("id", Value.vint 1)]] (Value.vint 2)
        (Value.vstr "0xabc") =
        Except.ok (true, [[("id", Value.vint 1)]], true) ∧
      update_kyc_status [[("id", Value.vint 1)]] (Value.vint 2)
        (Value.vbool true) =
        Except.ok (false, [[("id", Value.vint 1)]], false)) :=
  c10_user_updates [[("id", Value.vint 1)]] (Value.vint 2)
    (Value.vstr "owner") (Value.vstr "0xabc") (Value.vbool true)
    [("full_name", Value.vstr "A")]
    (fun u hu => by
      rw [List.mem_singleton] at hu
      subst hu
      exact ⟨Value.vint 1, rfl⟩)

end TrustSpace
